import Mathlib

/-!
Verification of the fib-dcron durable task manager against its
natural-language specification.

The development has two layers:

* a schema layer translated from the MySQL adapter
  (src/lib/db/mysql.js, the CREATE TABLE statement in MySQLAdapter.setup);
* an engine layer for the scheduler, worker pool, retry policy and
  payload serialization.  The engine implementation itself is not among
  the provided source files (only its tests and the MySQL adapter are),
  so those definitions are modelled from the specification, as marked in
  their doc comments.
-/

namespace Dcron

/-! ## Schema layer (translated from src/lib/db/mysql.js) -/

/-- SQL column types appearing in the CREATE TABLE statement of
MySQLAdapter.setup: BIGINT, VARCHAR(n), ENUM(...), INT, TEXT. -/
inductive ColType where
  | bigint : ColType
  | varchar : Nat → ColType
  | enum : List String → ColType
  | int : ColType
  | text : ColType
deriving DecidableEq, Repr

/-- A column declaration: name, type, NOT NULL flag, AUTO_INCREMENT flag,
and an optional integer DEFAULT. -/
structure Column where
  colName : String
  colType : ColType
  notNull : Bool
  autoIncrement : Bool
  deflt : Option Int
deriving DecidableEq, Repr

/-- A table schema: its name, its columns in declaration order, the
primary-key column, and the secondary indices (key name, column list). -/
structure TableSchema where
  tableName : String
  columns : List Column
  primaryKey : String
  indices : List (String × List String)
deriving DecidableEq, Repr

/-- The seven values of the status ENUM in the tasks table
(src/lib/db/mysql.js line 11). -/
def statusEnumValues : List String :=
  ["pending", "running", "completed", "failed", "timeout",
   "permanently_failed", "paused"]

/-- The two values of the type ENUM in the tasks table. -/
def typeEnumValues : List String := ["async", "cron"]

/-- The tasks table exactly as created by MySQLAdapter.setup. -/
def tasksSchema : TableSchema where
  tableName := "tasks"
  columns :=
    [⟨"id", .bigint, true, true, none⟩,
     ⟨"name", .varchar 255, true, false, none⟩,
     ⟨"type", .enum typeEnumValues, true, false, none⟩,
     ⟨"status", .enum statusEnumValues, true, false, none⟩,
     ⟨"priority", .int, false, false, some 0⟩,
     ⟨"payload", .text, false, false, none⟩,
     ⟨"cron_expr", .varchar 100, false, false, none⟩,
     ⟨"next_run_time", .bigint, true, false, none⟩,
     ⟨"last_active_time", .bigint, false, false, none⟩,
     ⟨"timeout", .int, false, false, some 60⟩,
     ⟨"retry_count", .int, false, false, some 0⟩,
     ⟨"max_retries", .int, false, false, some 3⟩,
     ⟨"retry_interval", .int, false, false, some 0⟩,
     ⟨"created_at", .bigint, false, false, none⟩,
     ⟨"result", .text, false, false, none⟩,
     ⟨"error", .text, false, false, none⟩]
  primaryKey := "id"
  indices :=
    [("idx_status_priority_next_run_time",
      ["status", "priority", "next_run_time"]),
     ("idx_name", ["name"])]

/-- Database state for schema bootstrap: either the tasks table does not
exist yet, or it exists with some schema. -/
abbrev DBState := Option TableSchema

/-- MySQLAdapter.setup runs CREATE TABLE IF NOT EXISTS tasks (...):
when the table is absent it is created with tasksSchema; when it already
exists the statement is a no-op and does not fail. -/
def setup (db : DBState) : DBState :=
  match db with
  | none => some tasksSchema
  | some s => some s

/-- A task row as constrained by the tasks table: every nullable field is
an Option, id is None on insert (filled by AUTO_INCREMENT). -/
structure TaskRow where
  id : Option Int
  nm : Option String
  typ : Option String
  status : Option String
  priority : Option Int
  payload : Option String
  cron_expr : Option String
  next_run_time : Option Int
  last_active_time : Option Int
  timeoutSecs : Option Int
  retry_count : Option Int
  max_retries : Option Int
  retry_interval : Option Int
  created_at : Option Int
  result : Option String
  error : Option String
deriving DecidableEq, Repr

/-- Row acceptance under the tasks table constraints (strict SQL mode):
NOT NULL columns must be present (id may be absent, AUTO_INCREMENT fills
it), VARCHAR(n) values are at most n characters, ENUM values belong to
the declared value list. -/
def rowAccepted (r : TaskRow) : Bool :=
  (match r.nm with
   | some s => s.length ≤ 255
   | none => false) &&
  (match r.typ with
   | some t => typeEnumValues.contains t
   | none => false) &&
  (match r.status with
   | some s => statusEnumValues.contains s
   | none => false) &&
  (match r.cron_expr with
   | some e => e.length ≤ 100
   | none => true) &&
  (match r.next_run_time with
   | some _ => true
   | none => false)

/-- A relational store over the tasks table: the stored rows keyed by id,
and the AUTO_INCREMENT counter (MySQL starts it at 1). -/
structure Store where
  rows : List (Nat × TaskRow)
  next_id : Nat
deriving Repr, DecidableEq

/-- The empty store right after setup. -/
def Store.init : Store := { rows := [], next_id := 1 }

/-- Inserting a row: rejected (nothing stored) when the row violates the
schema constraints; otherwise the AUTO_INCREMENT counter assigns the id
and advances. -/
def insertRow (st : Store) (r : TaskRow) : Option (Nat × Store) :=
  if rowAccepted r then
    some (st.next_id,
      { rows := st.rows ++ [(st.next_id, { r with id := some (st.next_id : Int) })],
        next_id := st.next_id + 1 })
  else none

/-- Modelled from the spec: the resting states named by the state machine
of section 3 (pending, running, completed, permanently_failed, plus
paused which the spec says exists in the schema for manual pause).  The
engine source that would pin these down is not among the provided files. -/
def specFsmStates : List String :=
  ["pending", "running", "completed", "permanently_failed", "paused"]

/-- A template row used to show that every enum status value is actually
attainable in an accepted row. -/
def templateRow (s : String) : TaskRow where
  id := none
  nm := some "t"
  typ := some "async"
  status := some s
  priority := some 0
  payload := none
  cron_expr := none
  next_run_time := some 0
  last_active_time := none
  timeoutSecs := some 60
  retry_count := some 0
  max_retries := some 3
  retry_interval := some 0
  created_at := some 0
  result := none
  error := none

/-- A row whose name has 256 characters, exceeding VARCHAR(255). -/
def badNameRow : TaskRow :=
  { templateRow "pending" with nm := some (String.mk (List.replicate 256 'a')) }

/-- A cron row whose expression has 101 characters, exceeding VARCHAR(100). -/
def badCronRow : TaskRow :=
  { templateRow "pending" with
    typ := some "cron"
    cron_expr := some (String.mk (List.replicate 101 'x')) }

/-- The store after inserting one template row into the empty store. -/
def c10Store1 : Store :=
  { rows := [(1, { templateRow "pending" with id := some 1 })], next_id := 2 }

/-- The store after a second template-row insert. -/
def c10Store2 : Store :=
  { rows := c10Store1.rows ++ [(2, { templateRow "pending" with id := some 2 })],
    next_id := 3 }

/-- C6: setup() is idempotent — calling it any number of times leaves the
same schema as calling it once, a second call on an existing schema does
not fail (it always yields a schema) — and it creates the table tasks
with exactly the two indices (status, priority, next_run_time)
and (name). -/
theorem C6_setup_idempotent :
    (∀ db : DBState, setup (setup db) = setup db) ∧
    (∀ db : DBState, ∃ s, setup db = some s) ∧
    setup none = some tasksSchema ∧
    tasksSchema.tableName = "tasks" ∧
    tasksSchema.indices =
      [("idx_status_priority_next_run_time",
        ["status", "priority", "next_run_time"]),
       ("idx_name", ["name"])] := by
  refine ⟨?_, ?_, rfl, rfl, rfl⟩
  · intro db
    cases db <;> rfl
  · intro db
    cases db <;> exact ⟨_, rfl⟩

/-- C8: the persistent domain of status is exactly the seven values
pending, running, completed, failed, timeout, permanently_failed,
paused — a row is accepted with status s iff s is among them — and the
two values failed and timeout are admitted by the schema although the
spec's state machine does not list them as task states. -/
theorem C8_status_domain :
    (∀ s : String,
        (∃ r : TaskRow, rowAccepted r = true ∧ r.status = some s) ↔
          s ∈ statusEnumValues) ∧
    statusEnumValues =
      ["pending", "running", "completed", "failed", "timeout",
       "permanently_failed", "paused"] ∧
    "failed" ∈ statusEnumValues ∧ "timeout" ∈ statusEnumValues ∧
    "failed" ∉ specFsmStates ∧ "timeout" ∉ specFsmStates := by
  refine ⟨?_, rfl, by decide, by decide, by decide, by decide⟩
  intro s
  constructor
  · rintro ⟨r, hacc, hs⟩
    simp only [rowAccepted, hs, Bool.and_eq_true] at hacc
    obtain ⟨⟨⟨⟨-, -⟩, hmem⟩, -⟩, -⟩ := hacc
    exact List.elem_iff.mp hmem
  · intro hmem
    refine ⟨templateRow s, ?_, rfl⟩
    simp only [rowAccepted, templateRow, Bool.and_eq_true]
    refine ⟨⟨⟨⟨by decide, by decide⟩, ?_⟩, by decide⟩, by decide⟩
    exact List.elem_iff.mpr hmem

/-- C8 witness: evaluates the round trip at the concrete status value
pending, discharging the existential via the theorem. -/
theorem C8_status_domain_witness :
    (∃ r : TaskRow, rowAccepted r = true ∧ r.status = some "pending") :=
  (C8_status_domain.1 "pending").mpr (by decide)

/-- C9: every accepted row has a non-null name of at most 255 characters
and a cron_expr that is null or at most 100 characters; a row with a
longer name or cron expression is rejected by insert and not stored. -/
theorem C9_length_limits :
    (∀ r : TaskRow, rowAccepted r = true →
        (∃ nm, r.nm = some nm ∧ nm.length ≤ 255) ∧
        (r.cron_expr = none ∨ ∃ e, r.cron_expr = some e ∧ e.length ≤ 100)) ∧
    (∀ (st : Store) (r : TaskRow) (nm : String),
        r.nm = some nm → 255 < nm.length → insertRow st r = none) ∧
    (∀ (st : Store) (r : TaskRow) (e : String),
        r.cron_expr = some e → 100 < e.length → insertRow st r = none) := by
  refine ⟨?_, ?_, ?_⟩
  · intro r hacc
    simp only [rowAccepted, Bool.and_eq_true] at hacc
    obtain ⟨⟨⟨⟨hnm, -⟩, -⟩, hce⟩, -⟩ := hacc
    constructor
    · cases hn : r.nm with
      | none => rw [hn] at hnm; simp at hnm
      | some nm =>
          rw [hn] at hnm
          exact ⟨nm, rfl, by simpa using hnm⟩
    · cases hc : r.cron_expr with
      | none => exact Or.inl rfl
      | some e =>
          rw [hc] at hce
          exact Or.inr ⟨e, rfl, by simpa using hce⟩
  · intro st r nm hn hlen
    unfold insertRow
    rw [if_neg]
    intro hacc
    simp only [rowAccepted, hn, Bool.and_eq_true] at hacc
    obtain ⟨⟨⟨⟨hnm, -⟩, -⟩, -⟩, -⟩ := hacc
    simp at hnm
    omega
  · intro st r e hc hlen
    unfold insertRow
    rw [if_neg]
    intro hacc
    simp only [rowAccepted, hc, Bool.and_eq_true] at hacc
    obtain ⟨⟨⟨⟨-, -⟩, -⟩, hce⟩, -⟩ := hacc
    simp at hce
    omega

set_option maxRecDepth 8000 in
/-- C9 witness: a 256-character name and a 101-character cron expression
are both rejected, by the theorem applied at those concrete rows. -/
theorem C9_length_limits_witness :
    insertRow Store.init badNameRow = none ∧
    insertRow Store.init badCronRow = none :=
  ⟨C9_length_limits.2.1 Store.init badNameRow
      (String.mk (List.replicate 256 'a')) rfl (by decide),
   C9_length_limits.2.2 Store.init badCronRow
      (String.mk (List.replicate 101 'x')) rfl (by decide)⟩

/-- C10: a successful insert returns the AUTO_INCREMENT counter, which
starts at 1, so every assigned id is strictly positive; two successive
inserts return strictly increasing ids; and a fresh id is never one
already present in the store. -/
theorem C10_ids_positive_increasing :
    ∀ (st : Store) (r1 r2 : TaskRow) (i1 i2 : Nat) (st1 st2 : Store),
      1 ≤ st.next_id →
      (∀ p ∈ st.rows, p.1 < st.next_id) →
      insertRow st r1 = some (i1, st1) →
      insertRow st1 r2 = some (i2, st2) →
      0 < i1 ∧ i1 < i2 ∧ i1 ∉ st.rows.map Prod.fst ∧
        (∀ p ∈ st1.rows, p.1 < st1.next_id) := by
  intro st r1 r2 i1 i2 st1 st2 hpos hfresh h1 h2
  unfold insertRow at h1 h2
  by_cases hr1 : rowAccepted r1 = true
  · rw [if_pos hr1] at h1
    obtain ⟨hi1, hst1⟩ := Prod.mk.injEq .. ▸ Option.some.injEq .. ▸ h1
    by_cases hr2 : rowAccepted r2 = true
    · rw [if_pos hr2] at h2
      obtain ⟨hi2, -⟩ := Prod.mk.injEq .. ▸ Option.some.injEq .. ▸ h2
      subst hi1 hi2
      rw [← hst1]
      refine ⟨by omega, by simp, ?_, ?_⟩
      · intro hmem
        obtain ⟨p, hp, hpe⟩ := List.mem_map.mp hmem
        exact absurd (hfresh p hp) (by omega)
      · intro p hp
        simp only [List.mem_append, List.mem_singleton] at hp
        rcases hp with hp | hp
        · have := hfresh p hp
          simp
          omega
        · subst hp
          simp
    · rw [if_neg hr2] at h2
      exact absurd h2 (by simp)
  · rw [if_neg hr1] at h1
    exact absurd h1 (by simp)

/-- C10 witness: two template-row inserts into the fresh store yield ids
1 then 2, by the theorem applied at those concrete stores. -/
theorem C10_ids_witness :
    0 < 1 ∧ 1 < 2 ∧ 1 ∉ Store.init.rows.map Prod.fst ∧
      (∀ p ∈ c10Store1.rows, p.1 < c10Store1.next_id) :=
  C10_ids_positive_increasing Store.init (templateRow "pending")
    (templateRow "pending") 1 2 c10Store1 c10Store2
    (by decide)
    (by intro p hp; simp [Store.init] at hp)
    (by decide)
    (by decide)

/-! ## Engine layer: claim ordering (modelled from the spec, sections
4.A and 4.D; the engine source is not among the provided files) -/

/-- Task status as used by the engine (the enum of section 3). -/
inductive TStatus where
  | pending
  | running
  | completed
  | failed
  | timeout
  | permanently_failed
  | paused
deriving DecidableEq, Repr

/-- Modelled from the spec: the in-memory task record (the section 3
fields the scheduler, worker pool and retry policy operate on). -/
structure MTask where
  id : Nat
  nm : String
  priority : Int
  next_run_time : Nat
  timeoutSecs : Nat
  retry_count : Nat
  max_retries : Nat
  retry_interval : Nat
  status : TStatus
  result : Option String
  error : Option String
deriving DecidableEq, Repr

/-- Modelled from the spec (glossary): a ready task has status pending
and next_run_time ≤ now. -/
def isReady (now : Nat) (t : MTask) : Bool :=
  t.status = TStatus.pending && t.next_run_time ≤ now

/-- Modelled from the spec: the claim ORDER BY of sections 4.A and 4.D —
next_run_time ASC, priority DESC, id ASC — as a boolean comparison. -/
def claimLEb (a b : MTask) : Bool :=
  if a.next_run_time < b.next_run_time then true
  else if b.next_run_time < a.next_run_time then false
  else if b.priority < a.priority then true
  else if a.priority < b.priority then false
  else decide (a.id ≤ b.id)

/-- The claim order as a relation. -/
def claimLE (a b : MTask) : Prop := claimLEb a b = true

instance : DecidableRel claimLE :=
  fun a b => instDecidableEqBool (claimLEb a b) true

/-- Arithmetic characterization of the claim order. -/
theorem claimLEb_iff (a b : MTask) : claimLEb a b = true ↔
    (a.next_run_time < b.next_run_time ∨
      (a.next_run_time = b.next_run_time ∧
        (b.priority < a.priority ∨
          (a.priority = b.priority ∧ a.id ≤ b.id)))) := by
  unfold claimLEb
  split_ifs <;> simp <;> omega

instance : IsTotal MTask claimLE where
  total a b := by
    unfold claimLE
    rw [claimLEb_iff, claimLEb_iff]
    omega

instance : IsTrans MTask claimLE where
  trans a b c hab hbc := by
    unfold claimLE at hab hbc ⊢
    rw [claimLEb_iff] at hab hbc ⊢
    omega

/-- The claim order is reflexive. -/
theorem claimLEb_refl (a : MTask) : claimLEb a a = true := by
  rw [claimLEb_iff]
  omega

/-- Modelled from the spec: claimReady(now, limit) of section 4.A —
select up to limit ready rows ordered by next_run_time ASC, priority
DESC, id ASC (the transactional update of the selected rows to running
is modelled separately by claimTask). -/
def claimReady (now lim : Nat) (tasks : List MTask) : List MTask :=
  (List.insertionSort claimLE (tasks.filter (isReady now))).take lim

/-- The claimed batch is sorted in the claim order. -/
theorem claimReady_pairwise (now lim : Nat) (tasks : List MTask) :
    List.Pairwise claimLE (claimReady now lim tasks) :=
  List.Pairwise.sublist (List.take_sublist _ _)
    (List.sorted_insertionSort claimLE _)

/-- In a batch sorted by the claim order, a task that the order places
strictly earlier occupies a strictly smaller position. -/
theorem pairwise_position_lt {l : List MTask} (hp : List.Pairwise claimLE l)
    {a b : MTask} (hba : ¬ claimLE b a) :
    ∀ i j : Nat, l.get? i = some a → l.get? j = some b → i < j := by
  intro i j hi hj
  obtain ⟨hil, hia⟩ := List.get?_eq_some.mp hi
  obtain ⟨hjl, hjb⟩ := List.get?_eq_some.mp hj
  by_contra hij
  push_neg at hij
  rcases Nat.lt_or_eq_of_le hij with hlt | heq
  · exact hba (hjb ▸ hia ▸ List.pairwise_iff_get.mp hp ⟨j, hjl⟩ ⟨i, hil⟩ hlt)
  · subst heq
    have hab : a = b := by rw [← hia, ← hjb]
    apply hba
    rw [hab]
    exact claimLEb_refl b

/-- A strictly earlier next_run_time strictly precedes in the claim
order, regardless of priority. -/
theorem not_claimLE_of_nrt_lt {t1 t2 : MTask}
    (h : t1.next_run_time < t2.next_run_time) : ¬ claimLE t2 t1 := by
  unfold claimLE
  rw [claimLEb_iff]
  omega

/-- At equal next_run_time, the strictly higher priority strictly
precedes in the claim order. -/
theorem not_claimLE_of_pri_lt {t1 t2 : MTask}
    (he : t1.next_run_time = t2.next_run_time)
    (h : t2.priority < t1.priority) : ¬ claimLE t2 t1 := by
  unfold claimLE
  rw [claimLEb_iff]
  omega

/-- A pending task with the given id, priority and next_run_time and the
per-test defaults of the scenarios. -/
def mkReadyTask (id : Nat) (priority : Int) (nrt : Nat) : MTask where
  id := id
  nm := "test"
  priority := priority
  next_run_time := nrt
  timeoutSecs := 60
  retry_count := 0
  max_retries := 2
  retry_interval := 0
  status := .pending
  result := none
  error := none

/-- The delay-dominates-priority scenario: three tasks submitted together
at time 1000 as (priority 1, delay 2), (priority 2, delay 1),
(priority 1, delay 1). -/
def c1Tasks : List MTask :=
  [mkReadyTask 1 1 1002, mkReadyTask 2 2 1001, mkReadyTask 3 1 1001]

/-- The priority scenario: three tasks with the same next_run_time and
priorities 0, 10, 5 in submission (id) order. -/
def c2Tasks : List MTask :=
  [mkReadyTask 1 0 1000, mkReadyTask 2 10 1000, mkReadyTask 3 5 1000]

/-- C1: with tasks (priority 1, delay 2), (priority 2, delay 1),
(priority 1, delay 1) all ready, the claim order of ids is [2, 3, 1];
in general a ready task with a strictly smaller next_run_time is claimed
before one with a larger next_run_time regardless of priorities. -/
theorem C1_delay_dominates_priority :
    (claimReady 1005 3 c1Tasks).map MTask.id = [2, 3, 1] ∧
    ∀ (now lim : Nat) (tasks : List MTask) (t1 t2 : MTask) (i j : Nat),
      t1.next_run_time < t2.next_run_time →
      (claimReady now lim tasks).get? i = some t1 →
      (claimReady now lim tasks).get? j = some t2 → i < j := by
  constructor
  · decide
  · intro now lim tasks t1 t2 i j hlt hi hj
    exact pairwise_position_lt (claimReady_pairwise now lim tasks)
      (not_claimLE_of_nrt_lt hlt) i j hi hj

/-- C1 witness: in the concrete scenario, the task with next_run_time
1001 (id 2) sits strictly before the one with 1002 (id 1). -/
theorem C1_delay_witness : (0 : Nat) < 2 :=
  C1_delay_dominates_priority.2 1005 3 c1Tasks
    (mkReadyTask 2 2 1001) (mkReadyTask 1 1 1002) 0 2
    (by decide) (by decide) (by decide)

/-- C2: among tasks ready with equal next_run_time, the strictly higher
priority is claimed first; with priorities 0, 10, 5 submitted in id
order 1, 2, 3 the claim order of ids is [2, 3, 1], i.e. priorities
10, 5, 0. -/
theorem C2_priority_ordering :
    (claimReady 1000 3 c2Tasks).map MTask.id = [2, 3, 1] ∧
    ∀ (now lim : Nat) (tasks : List MTask) (t1 t2 : MTask) (i j : Nat),
      t1.next_run_time = t2.next_run_time →
      t2.priority < t1.priority →
      (claimReady now lim tasks).get? i = some t1 →
      (claimReady now lim tasks).get? j = some t2 → i < j := by
  constructor
  · decide
  · intro now lim tasks t1 t2 i j he hp hi hj
    exact pairwise_position_lt (claimReady_pairwise now lim tasks)
      (not_claimLE_of_pri_lt he hp) i j hi hj

/-- C2 witness: in the concrete scenario, the priority 10 task (id 2)
sits strictly before the priority 5 task (id 3). -/
theorem C2_priority_witness : (0 : Nat) < 1 :=
  C2_priority_ordering.2 1000 3 c2Tasks
    (mkReadyTask 2 10 1000) (mkReadyTask 3 5 1000) 0 1
    (by decide) (by decide) (by decide) (by decide)

/-! ## Engine layer: retry policy, timeout (modelled from the spec,
sections 4.C, 4.E and 4.F) -/

/-- Modelled from the spec: backoff(n, base) of section 4.F — base when
positive, else a monotone escalation 2^(n-1) seconds capped at 60. -/
def backoff (n base : Nat) : Nat :=
  if 0 < base then base else min (2 ^ (n - 1)) 60

/-- Modelled from the spec: the claim transition of section 4.A — the
selected row becomes running and retry_count is incremented. -/
def claimTask (t : MTask) : MTask :=
  { t with
    status := TStatus.running
    retry_count := t.retry_count + 1 }

/-- Modelled from the spec: the retry policy of section 4.F applied to a
failed attempt — past max_retries the task is permanently_failed, else
it returns to pending with next_run_time pushed by the backoff; the
error message is persisted either way. -/
def failTask (now : Nat) (err : String) (t : MTask) : MTask :=
  if t.max_retries < t.retry_count then
    { t with
      status := TStatus.permanently_failed
      error := some err }
  else
    { t with
      status := TStatus.pending
      error := some err
      next_run_time := now + backoff t.retry_count t.retry_interval }

/-- Modelled from the spec: repeatedly claim and run a task whose handler
raises err on every attempt; each attempt goes through the retry policy;
returns the final record and the number of handler invocations. -/
def runFailing (err : String) : Nat → MTask → MTask × Nat
  | 0, t => (t, 0)
  | fuel + 1, t =>
    if t.status = TStatus.pending then
      ((runFailing err fuel (failTask t.next_run_time err (claimTask t))).1,
       (runFailing err fuel (failTask t.next_run_time err (claimTask t))).2 + 1)
    else (t, 0)

/-- A task that is not pending is never claimed again. -/
theorem runFailing_stuck (err : String) (fuel : Nat) (t : MTask)
    (h : ¬ t.status = TStatus.pending) : runFailing err fuel t = (t, 0) := by
  cases fuel with
  | zero => rfl
  | succ n => simp [runFailing, h]

/-- The retry discipline on an always-failing handler: starting from a
pending task with retry_count ≤ max_retries and enough fuel, it ends
permanently_failed with the handler's error stored, final retry_count
max_retries + 1, and exactly max_retries + 1 - retry_count further
attempts. -/
theorem runFailing_spec (err : String) :
    ∀ (fuel : Nat) (t : MTask),
      t.status = TStatus.pending →
      t.retry_count ≤ t.max_retries →
      t.max_retries + 1 - t.retry_count ≤ fuel →
      (runFailing err fuel t).1.status = TStatus.permanently_failed ∧
      (runFailing err fuel t).1.error = some err ∧
      (runFailing err fuel t).1.retry_count = t.max_retries + 1 ∧
      (runFailing err fuel t).2 = t.max_retries + 1 - t.retry_count := by
  intro fuel
  induction fuel with
  | zero =>
      intro t hp hrc hf
      omega
  | succ n ih =>
      intro t hp hrc hf
      by_cases hlast : t.retry_count = t.max_retries
      · have hstep :
            failTask t.next_run_time err (claimTask t) =
              { claimTask t with
                status := TStatus.permanently_failed
                error := some err } := by
          unfold failTask
          rw [if_pos]
          simp [claimTask]
          omega
        simp only [runFailing, if_pos hp, hstep]
        rw [runFailing_stuck err n _ (by simp)]
        simp [claimTask]
        omega
      · have hstep :
            failTask t.next_run_time err (claimTask t) =
              { claimTask t with
                status := TStatus.pending
                error := some err
                next_run_time :=
                  t.next_run_time +
                    backoff (claimTask t).retry_count
                      (claimTask t).retry_interval } := by
          unfold failTask
          rw [if_neg]
          simp [claimTask]
          omega
        simp only [runFailing, if_pos hp, hstep]
        simp only [claimTask]
        have ih2 := ih
          { claimTask t with
            status := TStatus.pending
            error := some err
            next_run_time :=
              t.next_run_time +
                backoff (claimTask t).retry_count (claimTask t).retry_interval }
          (by simp) (by simp [claimTask]; omega) (by simp [claimTask]; omega)
        simp [claimTask] at ih2
        refine ⟨ih2.1, ih2.2.1, ?_, ?_⟩
        · rw [ih2.2.2.1]
        · rw [ih2.2.2.2]
          omega

/-- C3: an async task whose handler raises "the error" on every attempt
ends permanently_failed with that error stored, after exactly
max_retries + 1 handler invocations. -/
theorem C3_retry_exhaustion :
    ∀ (err : String) (t : MTask) (fuel : Nat),
      t.status = TStatus.pending → t.retry_count = 0 →
      t.max_retries + 1 ≤ fuel →
      (runFailing err fuel t).1.status = TStatus.permanently_failed ∧
      (runFailing err fuel t).1.error = some err ∧
      (runFailing err fuel t).2 = t.max_retries + 1 := by
  intro err t fuel hp h0 hf
  obtain ⟨h1, h2, h3, h4⟩ := runFailing_spec err fuel t hp (by omega) (by omega)
  exact ⟨h1, h2, by omega⟩

/-- C3 witness: with max_retries 2 and a handler that always throws
"Task failed", the final state is permanently_failed with that error
after exactly 3 attempts. -/
theorem C3_retry_witness :
    (runFailing "Task failed" 3 (mkReadyTask 1 0 1000)).1.status =
        TStatus.permanently_failed ∧
    (runFailing "Task failed" 3 (mkReadyTask 1 0 1000)).1.error =
        some "Task failed" ∧
    (runFailing "Task failed" 3 (mkReadyTask 1 0 1000)).2 = 3 :=
  C3_retry_exhaustion "Task failed" (mkReadyTask 1 0 1000) 3 rfl rfl
    (by decide)

/-- Modelled from the spec: checkTimeout() of section 4.C — if the
deadline (claim time plus the task's timeout budget) has passed, the
handler is aborted with a timeout error. -/
def checkTimeout (startTime timeoutSecs now : Nat) : Except String Unit :=
  if startTime + timeoutSecs < now then Except.error "Task execution timeout"
  else Except.ok ()

/-- Modelled from the spec (test scenario 3): a handler that sleeps for
sleepSecs, then calls checkTimeout, then would return success. -/
def sleepyHandler (startTime timeoutSecs sleepSecs : Nat) :
    Except String String :=
  match checkTimeout startTime timeoutSecs (startTime + sleepSecs) with
  | Except.error e => Except.error e
  | Except.ok _ => Except.ok "success"

/-- Modelled from the spec: one worker step of section 4.E — claim the
task, run the handler, then complete on success or apply the retry
policy of section 4.F on failure; timeout errors take the same branch
as handler errors. -/
def runOnce (now : Nat) (handlerResult : Except String String) (t : MTask) :
    MTask :=
  match handlerResult with
  | Except.ok r =>
      { claimTask t with
        status := TStatus.completed
        result := some r }
  | Except.error e => failTask now e (claimTask t)

/-- A failed attempt of a task with max_retries 0 is terminal. -/
theorem runOnce_error_perm (now : Nat) (e : String) (t : MTask)
    (hmr : t.max_retries = 0) :
    (runOnce now (Except.error e) t).status = TStatus.permanently_failed := by
  have hr : runOnce now (Except.error e) t = failTask now e (claimTask t) := rfl
  rw [hr]
  unfold failTask
  rw [if_pos]
  simp [claimTask]
  omega

/-- C4: a handler that sleeps past the deadline and then calls
checkTimeout is aborted with the timeout error, and with max_retries 0
the task ends permanently_failed. -/
theorem C4_timeout_permanent :
    ∀ (t : MTask) (now sleepSecs : Nat),
      t.status = TStatus.pending → t.retry_count = 0 → t.max_retries = 0 →
      t.timeoutSecs < sleepSecs →
      sleepyHandler now t.timeoutSecs sleepSecs =
          Except.error "Task execution timeout" ∧
      (runOnce now (sleepyHandler now t.timeoutSecs sleepSecs) t).status =
          TStatus.permanently_failed := by
  intro t now s hp h0 hmr hlt
  have hh : sleepyHandler now t.timeoutSecs s =
      Except.error "Task execution timeout" := by
    unfold sleepyHandler checkTimeout
    rw [if_pos (by omega)]
  refine ⟨hh, ?_⟩
  rw [hh]
  exact runOnce_error_perm now _ t hmr

/-- The timeout-scenario task: timeout budget 1 second, max_retries 0. -/
def c4Task : MTask :=
  { mkReadyTask 1 0 1000 with
    timeoutSecs := 1
    max_retries := 0 }

/-- C4 witness: the scenario with timeout 1, a 2-second sleep and
max_retries 0 ends permanently_failed. -/
theorem C4_timeout_witness :
    sleepyHandler 1000 c4Task.timeoutSecs 2 =
        Except.error "Task execution timeout" ∧
    (runOnce 1000 (sleepyHandler 1000 c4Task.timeoutSecs 2) c4Task).status =
        TStatus.permanently_failed :=
  C4_timeout_permanent c4Task 1000 2 rfl rfl rfl (by decide)

/-! ## Engine layer: worker pool concurrency (modelled from the spec,
sections 4.D, 4.E and 5) -/

/-- Modelled from the spec: the scheduler-and-pool state — the pool
capacity max_concurrent_tasks and the task table. -/
structure PoolSys where
  cap : Nat
  tasks : List MTask
deriving DecidableEq, Repr

/-- The number of tasks in status running in a task list. -/
def runningCountL (ts : List MTask) : Nat :=
  ts.countP (fun t => decide (t.status = TStatus.running))

/-- The in-flight count: tasks currently in status running. -/
def runningCount (s : PoolSys) : Nat := runningCountL s.tasks

/-- Modelled from the spec: the dispatch of one poll tick — claim (via
claimTask) at most k ready tasks of the table. -/
def markClaim (now : Nat) : Nat → List MTask → List MTask
  | _, [] => []
  | 0, ts => ts
  | k + 1, t :: ts =>
    if isReady now t then claimTask t :: markClaim now k ts
    else t :: markClaim now (k + 1) ts

/-- Modelled from the spec: one poll tick of section 4.D — compute
free = max_concurrent_tasks − in_flight and claim at most free ready
tasks (when free = 0 nothing is claimed; the claim ORDER BY is modelled
by claimReady and does not affect the concurrency bound). -/
def tick (now : Nat) (s : PoolSys) : PoolSys :=
  { s with tasks := markClaim now (s.cap - runningCount s) s.tasks }

/-- The outcome a worker observes from the handler. -/
inductive Outcome where
  | ok : String → Outcome
  | err : String → Outcome
deriving DecidableEq, Repr

/-- Modelled from the spec: a worker finishing a running task — success
completes it with the result captured, failure goes through the retry
policy of section 4.F; a non-running task is untouched. -/
def finishTask (now : Nat) (o : Outcome) (t : MTask) : MTask :=
  if t.status = TStatus.running then
    match o with
    | Outcome.ok r =>
        { t with
          status := TStatus.completed
          result := some r }
    | Outcome.err e => failTask now e t
  else t

/-- Replace the i-th task by f of it. -/
def modifyAt (f : MTask → MTask) : Nat → List MTask → List MTask
  | _, [] => []
  | 0, t :: ts => f t :: ts
  | i + 1, t :: ts => t :: modifyAt f i ts

/-- Modelled from the spec: the completion event of the worker holding
the i-th task. -/
def finishAt (now : Nat) (o : Outcome) (i : Nat) (s : PoolSys) : PoolSys :=
  { s with tasks := modifyAt (finishTask now o) i s.tasks }

/-- The interleaving semantics of section 5: at any instant either the
poller ticks or some worker completes. -/
inductive PStep : PoolSys → PoolSys → Prop
  | tick (now : Nat) (s : PoolSys) : PStep s (tick now s)
  | finish (now : Nat) (o : Outcome) (i : Nat) (s : PoolSys) :
      PStep s (finishAt now o i s)

/-- States reachable from an initial state by poller/worker steps. -/
inductive Reachable (init : PoolSys) : PoolSys → Prop
  | refl : Reachable init init
  | step {s s2 : PoolSys} : Reachable init s → PStep s s2 → Reachable init s2

/-- Marking at most k tasks as running raises the running count by at
most k. -/
theorem runningCountL_markClaim (now : Nat) :
    ∀ (k : Nat) (ts : List MTask),
      runningCountL (markClaim now k ts) ≤ runningCountL ts + k := by
  intro k ts
  induction ts generalizing k with
  | nil => cases k <;> simp [markClaim]
  | cons t ts ih =>
      cases k with
      | zero => simp [markClaim]
      | succ k =>
          by_cases hr : isReady now t = true
          · simp only [markClaim, if_pos hr, runningCountL, List.countP_cons]
            have := ih k
            simp only [runningCountL] at this
            simp [claimTask]
            omega
          · simp only [markClaim, if_neg hr, runningCountL, List.countP_cons]
            have := ih (k + 1)
            simp only [runningCountL] at this
            cases hdt : decide (t.status = TStatus.running) <;> simp <;> omega

/-- A poll tick keeps the running count within the pool capacity. -/
theorem runningCount_tick (now : Nat) (s : PoolSys)
    (h : runningCount s ≤ s.cap) :
    runningCount (tick now s) ≤ (tick now s).cap := by
  have hm := runningCountL_markClaim now (s.cap - runningCount s) s.tasks
  simp only [tick, runningCount] at *
  omega

/-- A finished task is no longer running unless it was not running. -/
theorem finishTask_running (now : Nat) (o : Outcome) (t : MTask)
    (h : (finishTask now o t).status = TStatus.running) :
    t.status = TStatus.running := by
  by_cases hr : t.status = TStatus.running
  · exact hr
  · rw [finishTask.eq_def, if_neg hr] at h
    exact absurd h hr

/-- A worker completion never increases the running count. -/
theorem runningCountL_modifyAt (now : Nat) (o : Outcome) :
    ∀ (i : Nat) (ts : List MTask),
      runningCountL (modifyAt (finishTask now o) i ts) ≤ runningCountL ts := by
  intro i ts
  induction ts generalizing i with
  | nil => simp [modifyAt]
  | cons t ts ih =>
      cases i with
      | zero =>
          simp only [modifyAt, runningCountL, List.countP_cons]
          by_cases hf : (finishTask now o t).status = TStatus.running
          · have ht := finishTask_running now o t hf
            simp [hf, ht]
          · by_cases ht : t.status = TStatus.running <;> simp [hf, ht]
      | succ i =>
          simp only [modifyAt, runningCountL, List.countP_cons]
          have := ih i
          simp only [runningCountL] at this
          omega

/-- The bounded-concurrency invariant: from any state within the bound,
every reachable state keeps the running count at most the capacity. -/
theorem reachable_running_le (init s : PoolSys)
    (hinit : runningCount init ≤ init.cap) (hr : Reachable init s) :
    runningCount s ≤ s.cap := by
  induction hr with
  | refl => exact hinit
  | step hprev hstep ih =>
      rename_i s1 s2
      cases hstep with
      | tick now s => exact runningCount_tick now s1 ih
      | finish now o i s =>
          have hm := runningCountL_modifyAt now o i s1.tasks
          simp only [finishAt, runningCount] at *
          omega

/-- The concurrency-cap scenario: capacity 3 and three ready tasks. -/
def c7Sys : PoolSys where
  cap := 3
  tasks := [mkReadyTask 1 0 1000, mkReadyTask 2 0 1000, mkReadyTask 3 0 1000]

/-- C7: at most max_concurrent_tasks tasks are in status running at any
instant of any poller/worker interleaving; with capacity 3 and three
ready tasks, a single tick claims all three (they begin within one poll
interval) and after the three completions all are completed. -/
theorem C7_bounded_concurrency :
    (∀ (init s : PoolSys), runningCount init ≤ init.cap →
        Reachable init s → runningCount s ≤ s.cap) ∧
    runningCount (tick 1000 c7Sys) = 3 ∧
    (tick 1000 c7Sys).cap = 3 ∧
    ((finishAt 1001 (Outcome.ok "r") 2
        (finishAt 1001 (Outcome.ok "r") 1
          (finishAt 1001 (Outcome.ok "r") 0 (tick 1000 c7Sys)))).tasks.all
      (fun t => decide (t.status = TStatus.completed))) = true := by
  refine ⟨fun init s h hr => reachable_running_le init s h hr,
    by decide, by decide, by decide⟩

/-- C7 witness: the invariant applied to the concrete scenario after one
tick, reached by one poller step. -/
theorem C7_concurrency_witness :
    runningCount (tick 1000 c7Sys) ≤ (tick 1000 c7Sys).cap :=
  C7_bounded_concurrency.1 c7Sys (tick 1000 c7Sys) (by decide)
    (Reachable.step Reachable.refl (PStep.tick 1000 c7Sys))

/-! ## Engine layer: payload serialization (modelled from the spec,
sections 3, 4.A and 6 — the payload is an opaque structured value
serialized to a JSON text blob on insert and deserialized on reads) -/

/-- A primitive JSON value of a payload field. -/
inductive PVal where
  | pstr : String → PVal
  | pint : Int → PVal
  | pbool : Bool → PVal
  | pnull : PVal
deriving DecidableEq, Repr

/-- A payload: a JSON object of named primitive fields (the shape the
spec's tests use, e.g. one data field holding a string or a number). -/
abbrev Payload := List (String × PVal)

/-- The opening brace character of a JSON object. -/
def lbraceCh : Char := '\x7b'

/-- The closing brace character of a JSON object. -/
def rbraceCh : Char := '\x7d'

/-- The double-quote character. -/
def quoteCh : Char := '"'

/-- The backslash character. -/
def backslashCh : Char := '\\'

/-- JSON string escaping of one character: quote and backslash get a
backslash prefix, everything else passes through. -/
def escChar (c : Char) : List Char :=
  if c = quoteCh ∨ c = backslashCh then [backslashCh, c] else [c]

/-- A JSON string literal: quoted, with the content escaped. -/
def encStr (s : String) : List Char :=
  quoteCh :: (s.data.map escChar).flatten ++ [quoteCh]

/-- The decimal digit character for n < 10. -/
def digitCh (n : Nat) : Char := Char.ofNat (48 + n)

/-- Decimal digits of a natural number, most significant first. -/
def natChars (n : Nat) : List Char :=
  if n < 10 then [digitCh n]
  else natChars (n / 10) ++ [digitCh (n % 10)]
termination_by n
decreasing_by omega

/-- Decimal representation of an integer. -/
def intChars (n : Int) : List Char :=
  if n < 0 then '-' :: natChars n.natAbs else natChars n.natAbs

/-- JSON encoding of a primitive value. -/
def encVal : PVal → List Char
  | PVal.pstr s => encStr s
  | PVal.pint n => intChars n
  | PVal.pbool true => "true".data
  | PVal.pbool false => "false".data
  | PVal.pnull => "null".data

/-- One key:value member of the JSON object. -/
def encEntry (kv : String × PVal) : List Char :=
  encStr kv.1 ++ ':' :: encVal kv.2

/-- The comma-separated members of the JSON object. -/
def encEntries : Payload → List Char
  | [] => []
  | kv :: [] => encEntry kv
  | kv :: kv2 :: rest => encEntry kv ++ ',' :: encEntries (kv2 :: rest)

/-- The JSON object text of a payload. -/
def encPayload (p : Payload) : List Char :=
  lbraceCh :: encEntries p ++ [rbraceCh]

/-- Modelled from the spec: serialization of a payload to the text blob
stored in the payload column. -/
def serializePayload (p : Payload) : String := String.mk (encPayload p)

/-- String-literal body parser: acc holds the characters read so far in
reverse; the flag records that the previous character was an unconsumed
backslash, so the next character is taken literally; an unescaped quote
ends the literal. -/
def parseStrAux : Bool → List Char → List Char → Option (List Char × List Char)
  | _, _, [] => none
  | true, acc, c :: rest => parseStrAux false (c :: acc) rest
  | false, acc, c :: rest =>
    if c = quoteCh then some (acc.reverse, rest)
    else if c = backslashCh then parseStrAux true acc rest
    else parseStrAux false (c :: acc) rest

/-- Parse a quoted JSON string literal. -/
def parseStr : List Char → Option (List Char × List Char)
  | [] => none
  | c :: rest => if c = quoteCh then parseStrAux false [] rest else none

/-- Decimal digit test. -/
def isDigitCh (c : Char) : Bool := 48 ≤ c.toNat && c.toNat ≤ 57

/-- Value of a decimal digit character. -/
def digitVal (c : Char) : Nat := c.toNat - 48

/-- Consume leading digits, accumulating their value. -/
def parseNatAux : List Char → Nat → Nat × List Char
  | [], acc => (acc, [])
  | c :: rest, acc =>
    if isDigitCh c then parseNatAux rest (acc * 10 + digitVal c)
    else (acc, c :: rest)

/-- Parse a natural number (at least one digit). -/
def parseNat (cs : List Char) : Option (Nat × List Char) :=
  match cs with
  | [] => none
  | c :: _ => if isDigitCh c then some (parseNatAux cs 0) else none

/-- Parse an integer with an optional leading minus sign. -/
def parseInt (cs : List Char) : Option (Int × List Char) :=
  match cs with
  | [] => none
  | c :: rest =>
    if c = '-' then (parseNat rest).map (fun p => (-(p.1 : Int), p.2))
    else (parseNat cs).map (fun p => ((p.1 : Int), p.2))

/-- Parse a primitive JSON value: the literals true, false, null, a
string literal, or a number. -/
def parseVal (cs : List Char) : Option (PVal × List Char) :=
  if cs.take 4 = "true".data then some (PVal.pbool true, cs.drop 4)
  else if cs.take 5 = "false".data then some (PVal.pbool false, cs.drop 5)
  else if cs.take 4 = "null".data then some (PVal.pnull, cs.drop 4)
  else if cs.take 1 = [quoteCh] then
    (parseStr cs).map (fun p => (PVal.pstr (String.mk p.1), p.2))
  else (parseInt cs).map (fun p => (PVal.pint p.1, p.2))

/-- Parse the comma-separated members of a JSON object (at least one);
fuel bounds the number of members. -/
def parseEntries : Nat → List Char → Option (Payload × List Char)
  | 0, _ => none
  | fuel + 1, cs =>
    match parseStr cs with
    | none => none
    | some (k, rest1) =>
      match rest1 with
      | [] => none
      | c :: rest2 =>
        if c = ':' then
          match parseVal rest2 with
          | none => none
          | some (v, rest3) =>
            match rest3 with
            | [] => some ([(String.mk k, v)], [])
            | d :: rest4 =>
              if d = ',' then
                (parseEntries fuel rest4).map
                  (fun q => ((String.mk k, v) :: q.1, q.2))
              else some ([(String.mk k, v)], d :: rest4)
        else none

/-- Modelled from the spec: deserialization of the payload text blob
read back from the store. -/
def parsePayload (s : String) : Option Payload :=
  match s.data with
  | [] => none
  | c :: rest =>
    if c = lbraceCh then
      if rest = [rbraceCh] then some []
      else
        match parseEntries rest.length rest with
        | none => none
        | some (p, rest2) => if rest2 = [rbraceCh] then some p else none
    else none

/-- Modelled from the spec: the engine-level row async(name, payload)
persists — the assigned id, the task name, and the serialized payload
blob. -/
structure ERow where
  eid : Nat
  nm : String
  blob : String
deriving DecidableEq, Repr

/-- Modelled from the spec: the engine-level store for async/getTask. -/
structure EStore where
  rows : List ERow
  next_id : Nat
deriving DecidableEq, Repr

/-- The empty engine store. -/
def estoreInit : EStore := { rows := [], next_id := 1 }

/-- Modelled from the spec: async(name, payload) — insert a task whose
payload column holds the serialized blob; returns the assigned id. -/
def asyncSubmit (name : String) (p : Payload) (st : EStore) : Nat × EStore :=
  (st.next_id,
    { rows := st.rows ++ [⟨st.next_id, name, serializePayload p⟩],
      next_id := st.next_id + 1 })

/-- Modelled from the spec: getTask(id).payload — find the row by id and
deserialize its payload blob. -/
def getTaskPayload (st : EStore) (id : Nat) : Option Payload :=
  match st.rows.find? (fun r => r.eid == id) with
  | some r => parsePayload r.blob
  | none => none

theorem backslash_ne_quote : ¬ (backslashCh = quoteCh) := by decide

/-- An unescaped quote ends the literal. -/
theorem parseStrAux_quote (acc rest : List Char) :
    parseStrAux false acc (quoteCh :: rest) = some (acc.reverse, rest) := by
  simp [parseStrAux]

/-- A backslash switches to the escape state. -/
theorem parseStrAux_backslash (acc rest : List Char) :
    parseStrAux false acc (backslashCh :: rest) = parseStrAux true acc rest := by
  simp [parseStrAux, backslash_ne_quote]

/-- In the escape state the next character is taken literally. -/
theorem parseStrAux_escTake (acc : List Char) (c : Char) (rest : List Char) :
    parseStrAux true acc (c :: rest) = parseStrAux false (c :: acc) rest := by
  simp [parseStrAux]

/-- Any other character is taken literally. -/
theorem parseStrAux_other {c : Char} (hq : ¬ c = quoteCh)
    (hb : ¬ c = backslashCh) (acc rest : List Char) :
    parseStrAux false acc (c :: rest) = parseStrAux false (c :: acc) rest := by
  simp [parseStrAux, hq, hb]

/-- Reading an escaped string body stops exactly at the closing quote. -/
theorem parseStrAux_esc :
    ∀ (s acc rest : List Char),
      parseStrAux false acc ((s.map escChar).flatten ++ quoteCh :: rest) =
        some (acc.reverse ++ s, rest) := by
  intro s
  induction s with
  | nil =>
      intro acc rest
      simpa using parseStrAux_quote acc rest
  | cons c s ih =>
      intro acc rest
      by_cases hesc : c = quoteCh ∨ c = backslashCh
      · simp only [List.map_cons, List.flatten_cons, escChar, if_pos hesc,
          List.cons_append, List.nil_append, List.append_assoc]
        rw [parseStrAux_backslash, parseStrAux_escTake, ih]
        simp
      · push_neg at hesc
        simp only [List.map_cons, List.flatten_cons, escChar,
          if_neg (by tauto : ¬ (c = quoteCh ∨ c = backslashCh)),
          List.cons_append, List.nil_append, List.append_assoc]
        rw [parseStrAux_other hesc.1 hesc.2, ih]
        simp

/-- Round trip for JSON string literals. -/
theorem parseStr_enc (s : String) (rest : List Char) :
    parseStr (encStr s ++ rest) = some (s.data, rest) := by
  unfold encStr parseStr
  simp only [List.cons_append, List.append_assoc, List.singleton_append]
  simpa using parseStrAux_esc s.data [] rest

/-- Digit characters decode to their value. -/
theorem digitVal_digitCh (n : Nat) (h : n < 10) : digitVal (digitCh n) = n := by
  interval_cases n <;> rfl

/-- Digit characters pass the digit test. -/
theorem isDigitCh_digitCh (n : Nat) (h : n < 10) :
    isDigitCh (digitCh n) = true := by
  interval_cases n <;> rfl

/-- The digit string of a natural number is never empty. -/
theorem natChars_ne_nil (n : Nat) : natChars n ≠ [] := by
  rw [natChars]
  split_ifs <;> simp

/-- Every character of the digit string is a digit. -/
theorem natChars_digits : ∀ (n : Nat), ∀ c ∈ natChars n, isDigitCh c = true := by
  intro n
  induction n using Nat.strong_induction_on with
  | _ n ih =>
      rw [natChars]
      by_cases h : n < 10
      · rw [if_pos h]
        intro c hc
        simp only [List.mem_singleton] at hc
        subst hc
        exact isDigitCh_digitCh n h
      · rw [if_neg h]
        intro c hc
        rcases List.mem_append.mp hc with hc | hc
        · exact ih (n / 10) (by omega) c hc
        · simp only [List.mem_singleton] at hc
          subst hc
          exact isDigitCh_digitCh (n % 10) (by omega)

/-- The digit accumulator runs through a block of digits. -/
theorem parseNatAux_append :
    ∀ (ds : List Char), (∀ c ∈ ds, isDigitCh c = true) →
      ∀ (rest : List Char) (acc : Nat),
        parseNatAux (ds ++ rest) acc =
          parseNatAux rest (ds.foldl (fun a c => a * 10 + digitVal c) acc) := by
  intro ds
  induction ds with
  | nil => intro _ rest acc; rfl
  | cons c ds ih =>
      intro hd rest acc
      have hc : isDigitCh c = true := hd c (List.mem_cons_self c ds)
      simp only [List.cons_append, parseNatAux, if_pos hc, List.foldl_cons]
      exact ih (fun d hdm => hd d (List.mem_cons_of_mem c hdm)) rest _

/-- Folding the digit accumulator over the digit string of n recovers n. -/
theorem natChars_foldl :
    ∀ (n : Nat), ∀ (acc : Nat),
      (natChars n).foldl (fun a c => a * 10 + digitVal c) acc =
        acc * 10 ^ (natChars n).length + n := by
  intro n
  induction n using Nat.strong_induction_on with
  | _ n ih =>
      intro acc
      rw [natChars]
      by_cases h : n < 10
      · rw [if_pos h]
        simp [digitVal_digitCh n h]
      · rw [if_neg h]
        rw [List.foldl_append, ih (n / 10) (by omega) acc]
        simp only [List.foldl_cons, List.foldl_nil, List.length_append,
          List.length_singleton]
        rw [digitVal_digitCh (n % 10) (by omega), pow_succ, ← Nat.mul_assoc]
        have hdm := Nat.div_add_mod n 10
        set L := (natChars (n / 10)).length
        set B := acc * 10 ^ L
        omega

/-- A list on which number parsing stops: empty or headed by a
non-digit. -/
def numStop : List Char → Bool
  | [] => true
  | c :: _ => !(isDigitCh c)

/-- The digit accumulator does not run past a stop list. -/
theorem parseNatAux_stop (rest : List Char) (acc : Nat)
    (h : numStop rest = true) : parseNatAux rest acc = (acc, rest) := by
  cases rest with
  | nil => rfl
  | cons c cs =>
      simp only [numStop, Bool.not_eq_true'] at h
      simp [parseNatAux, h]

/-- Round trip for natural-number literals. -/
theorem parseNat_natChars (n : Nat) (rest : List Char)
    (h : numStop rest = true) : parseNat (natChars n ++ rest) = some (n, rest) := by
  have hd := natChars_digits n
  cases hnc : natChars n with
  | nil => exact absurd hnc (natChars_ne_nil n)
  | cons c cs =>
      have hc : isDigitCh c = true := by
        apply hd
        rw [hnc]
        exact List.mem_cons_self c cs
      have hall : ∀ d ∈ natChars n, isDigitCh d = true := hd
      rw [hnc] at hall
      simp only [List.cons_append, parseNat, if_pos hc]
      have happ := parseNatAux_append (c :: cs) hall rest 0
      simp only [List.cons_append] at happ
      rw [happ, parseNatAux_stop rest _ h]
      have hv := natChars_foldl n 0
      rw [hnc] at hv
      simp only [Nat.zero_mul, Nat.zero_add] at hv
      rw [hv]

/-- A digit character is not the minus sign. -/
theorem digit_ne_minus {c : Char} (h : isDigitCh c = true) : ¬ (c = '-') := by
  intro he
  rw [he] at h
  exact absurd h (by decide)

/-- Round trip for integer literals. -/
theorem parseInt_intChars (n : Int) (rest : List Char)
    (h : numStop rest = true) : parseInt (intChars n ++ rest) = some (n, rest) := by
  unfold intChars
  by_cases hneg : n < 0
  · rw [if_pos hneg]
    simp only [List.cons_append, parseInt, if_pos rfl]
    rw [parseNat_natChars _ _ h]
    simp only [Option.map]
    have he : -(n.natAbs : Int) = n := by omega
    rw [he]
    simp
  · rw [if_neg hneg]
    have hd := natChars_digits n.natAbs
    cases hnc : natChars n.natAbs with
    | nil => exact absurd hnc (natChars_ne_nil n.natAbs)
    | cons c cs =>
        have hc : isDigitCh c = true := by
          apply hd
          rw [hnc]
          exact List.mem_cons_self c cs
        have hnat := parseNat_natChars n.natAbs rest h
        rw [hnc] at hnat
        simp only [List.cons_append, parseInt, if_neg (digit_ne_minus hc)]
        simp only [List.cons_append] at hnat
        rw [hnat]
        simp only [Option.map]
        have : (n.natAbs : Int) = n := by omega
        rw [this]

theorem true_data : "true".data = ['t', 'r', 'u', 'e'] := rfl

theorem false_data : "false".data = ['f', 'a', 'l', 's', 'e'] := rfl

theorem null_data : "null".data = ['n', 'u', 'l', 'l'] := rfl

/-- A list headed by c does not start with a different character d. -/
theorem take_cons_ne {c d : Char} (hne : ¬ c = d) (cs ds : List Char)
    (k : Nat) : ¬ ((c :: cs).take (k + 1) = d :: ds) := by
  simp [List.take_succ_cons, hne]

/-- A digit character is none of the keyword or quote head characters. -/
theorem digit_head_facts {c : Char} (h : isDigitCh c = true) :
    ¬ c = 't' ∧ ¬ c = 'f' ∧ ¬ c = 'n' ∧ ¬ c = quoteCh := by
  simp only [isDigitCh, Bool.and_eq_true, decide_eq_true_eq] at h
  refine ⟨?_, ?_, ?_, ?_⟩ <;> intro he <;> subst he <;> revert h <;> decide

theorem numStop_rbrace : numStop [rbraceCh] = true := by decide

theorem numStop_comma (X : List Char) : numStop (',' :: X) = true := by
  simp [numStop]
  decide

/-- Round trip for primitive JSON values, with a stop list after. -/
theorem parseVal_enc (v : PVal) (rest : List Char) (h : numStop rest = true) :
    parseVal (encVal v ++ rest) = some (v, rest) := by
  cases v with
  | pbool b =>
      cases b
      · rw [show encVal (PVal.pbool false) = "false".data from rfl, false_data]
        simp [parseVal, true_data, null_data, quoteCh]
      · rw [show encVal (PVal.pbool true) = "true".data from rfl, true_data]
        simp [parseVal]
  | pnull =>
      rw [show encVal PVal.pnull = "null".data from rfl, null_data]
      simp [parseVal, true_data, false_data, quoteCh]
  | pstr s =>
      have hshape : encVal (PVal.pstr s) ++ rest =
          quoteCh :: ((s.data.map escChar).flatten ++ quoteCh :: rest) := by
        simp [encVal, encStr]
      rw [hshape]
      unfold parseVal
      rw [if_neg (by rw [true_data]; exact take_cons_ne (by decide) _ _ 3)]
      rw [if_neg (by rw [false_data]; exact take_cons_ne (by decide) _ _ 4)]
      rw [if_neg (by rw [null_data]; exact take_cons_ne (by decide) _ _ 3)]
      rw [if_pos (by simp [List.take_succ_cons])]
      have hps : parseStr (quoteCh ::
          ((s.data.map escChar).flatten ++ quoteCh :: rest)) =
          some (s.data, rest) := by
        have := parseStr_enc s rest
        simp only [encStr, List.cons_append, List.append_assoc,
          List.singleton_append] at this
        exact this
      rw [hps]
      simp only [Option.map]
  | pint n =>
      obtain ⟨c, cs, hcons, hhead⟩ :
          ∃ c cs, intChars n = c :: cs ∧ (c = '-' ∨ isDigitCh c = true) := by
        unfold intChars
        by_cases hneg : n < 0
        · rw [if_pos hneg]
          exact ⟨'-', _, rfl, Or.inl rfl⟩
        · rw [if_neg hneg]
          cases hnc : natChars n.natAbs with
          | nil => exact absurd hnc (natChars_ne_nil _)
          | cons c cs =>
              refine ⟨c, cs, rfl, Or.inr ?_⟩
              apply natChars_digits
              rw [hnc]
              exact List.mem_cons_self c cs
      have hfacts : ¬ c = 't' ∧ ¬ c = 'f' ∧ ¬ c = 'n' ∧ ¬ c = quoteCh := by
        rcases hhead with he | hd
        · subst he
          exact ⟨by decide, by decide, by decide, by decide⟩
        · exact digit_head_facts hd
      have hint := parseInt_intChars n rest h
      rw [hcons] at hint
      simp only [List.cons_append] at hint
      rw [show encVal (PVal.pint n) = intChars n from rfl, hcons]
      simp only [List.cons_append]
      unfold parseVal
      rw [if_neg (by rw [true_data]; exact take_cons_ne hfacts.1 _ _ 3)]
      rw [if_neg (by rw [false_data]; exact take_cons_ne hfacts.2.1 _ _ 4)]
      rw [if_neg (by rw [null_data]; exact take_cons_ne hfacts.2.2.1 _ _ 3)]
      rw [if_neg (by simp [List.take_succ_cons, hfacts.2.2.2])]
      rw [hint]
      simp only [Option.map]

theorem rbrace_ne_comma : ¬ (rbraceCh = ',') := by decide

/-- Round trip for the member list of a JSON object, the closing brace
following. -/
theorem parseEntries_enc :
    ∀ (p : Payload) (fuel : Nat), p ≠ [] → p.length ≤ fuel →
      parseEntries fuel (encEntries p ++ [rbraceCh]) =
        some (p, [rbraceCh]) := by
  intro p
  induction p with
  | nil =>
      intro fuel hne
      exact absurd rfl hne
  | cons kv p2 ih =>
      intro fuel hne hlen
      cases fuel with
      | zero => simp at hlen
      | succ fuel =>
          cases p2 with
          | nil =>
              simp only [encEntries, encEntry, List.append_assoc,
                List.cons_append, List.nil_append]
              simp only [parseEntries]
              rw [parseStr_enc kv.1 (':' :: (encVal kv.2 ++ [rbraceCh]))]
              simp only [if_pos rfl]
              rw [parseVal_enc kv.2 [rbraceCh] numStop_rbrace]
              simp only [if_neg rbrace_ne_comma]
              simp
          | cons kv2 p3 =>
              simp only [encEntries, encEntry, List.append_assoc,
                List.cons_append, List.nil_append]
              simp only [parseEntries]
              rw [parseStr_enc kv.1
                (':' :: (encVal kv.2 ++
                  (',' :: (encEntries (kv2 :: p3) ++ [rbraceCh]))))]
              simp only [if_pos rfl]
              rw [parseVal_enc kv.2
                (',' :: (encEntries (kv2 :: p3) ++ [rbraceCh]))
                (numStop_comma _)]
              simp only [if_pos rfl]
              rw [ih fuel (by simp) (by simp at hlen ⊢; omega)]
              simp only [Option.map]
              simp

/-- Every JSON object member occupies at least one character. -/
theorem encEntry_len_pos (kv : String × PVal) : 1 ≤ (encEntry kv).length := by
  simp [encEntry, encStr]

/-- The member text is at least as long as the member count. -/
theorem encEntries_len : ∀ p : Payload, p.length ≤ (encEntries p).length := by
  intro p
  induction p with
  | nil => simp [encEntries]
  | cons kv p2 ih =>
      cases p2 with
      | nil => simpa [encEntries] using encEntry_len_pos kv
      | cons kv2 p3 =>
          simp only [encEntries, List.length_cons, List.length_append]
          have h1 := encEntry_len_pos kv
          simp only [List.length_cons] at ih ⊢
          omega

/-- The member text of a nonempty payload starts with a quote. -/
theorem encEntries_cons_head (kv : String × PVal) (p2 : Payload) :
    ∃ X, encEntries (kv :: p2) = quoteCh :: X := by
  cases p2 with
  | nil =>
      simp only [encEntries, encEntry, encStr, List.cons_append]
      exact ⟨_, rfl⟩
  | cons kv2 p3 =>
      simp only [encEntries, encEntry, encStr, List.cons_append,
        List.append_assoc]
      exact ⟨_, rfl⟩

theorem quote_ne_rbrace : ¬ (quoteCh = rbraceCh) := by decide

/-- The payload codec round trip: deserialization inverts serialization. -/
theorem parse_serialize (p : Payload) :
    parsePayload (serializePayload p) = some p := by
  unfold serializePayload parsePayload encPayload
  cases p with
  | nil => simp [encEntries]
  | cons kv p2 =>
      obtain ⟨X, hX⟩ := encEntries_cons_head kv p2
      show (if lbraceCh = lbraceCh then
          if encEntries (kv :: p2) ++ [rbraceCh] = [rbraceCh] then some []
          else
            match parseEntries (encEntries (kv :: p2) ++ [rbraceCh]).length
                (encEntries (kv :: p2) ++ [rbraceCh]) with
            | none => none
            | some (p, rest2) => if rest2 = [rbraceCh] then some p else none
        else none) = some (kv :: p2)
      rw [if_pos rfl]
      rw [if_neg (by simp [hX, quote_ne_rbrace])]
      have hfuel : (kv :: p2).length ≤
          (encEntries (kv :: p2) ++ [rbraceCh]).length := by
        have hl := encEntries_len (kv :: p2)
        simp only [List.length_append, List.length_cons] at hl ⊢
        omega
      rw [parseEntries_enc (kv :: p2)
        ((encEntries (kv :: p2) ++ [rbraceCh]).length) (by simp) hfuel]
      simp

/-- C5: reading back the task created by async(name, p) returns a record
whose payload equals p — the payload survives serialization to a text
blob and deserialization unchanged (for any store whose existing ids are
below the counter, as every store built by inserts is). -/
theorem C5_payload_round_trip :
    ∀ (name : String) (p : Payload) (st : EStore),
      (∀ r ∈ st.rows, r.eid < st.next_id) →
      getTaskPayload (asyncSubmit name p st).2 (asyncSubmit name p st).1 =
        some p := by
  intro name p st hfresh
  unfold asyncSubmit getTaskPayload
  simp only []
  have hnone : st.rows.find? (fun r => r.eid == st.next_id) = none := by
    rw [List.find?_eq_none]
    intro r hr
    simpa using Nat.ne_of_lt (hfresh r hr)
  rw [List.find?_append, hnone]
  simp [List.find?, parse_serialize]

/-- The payload of the round-trip scenario. -/
def c5Payload : Payload := [("data", PVal.pstr "test_data")]

/-- C5 witness: the round trip at the concrete test payload on the empty
store, by the theorem. -/
theorem C5_round_trip_witness :
    getTaskPayload (asyncSubmit "test_task" c5Payload estoreInit).2
        (asyncSubmit "test_task" c5Payload estoreInit).1 = some c5Payload :=
  C5_payload_round_trip "test_task" c5Payload estoreInit
    (by intro r hr; simp [estoreInit] at hr)

end Dcron
